import Mathlib

/-!
Verification of the cache synchronization engine of the Apfelsaft article
server (canonical variant: `src/server.js`, with the request-body reader of
`src/api/[...all].js`).  JavaScript values are modelled by an inductive type
`JValue`; fallible JavaScript evaluation (property access on `null` or
`undefined` throws a `TypeError`) is modelled in the `Except` monad; the
wall clock and the platform primitives `Date.prototype.toISOString`,
`new Date(v).getTime()` and `JSON.parse` are injected through a `JsPrims`
record, so every operation is deterministic given a fixed clock.
-/

namespace Apfelsaft

/-- Model of the JavaScript values the engine manipulates: JSON values plus
`undefined`.  Numbers are modelled as integers (every value that reaches the
engine through `JSON.parse` of the feeds used here is integral). -/
inductive JValue where
  | jnull : JValue
  | jundefined : JValue
  | jbool : Bool → JValue
  | jnum : Int → JValue
  | jstr : String → JValue
  | jarr : List JValue → JValue
  | jobj : List (String × JValue) → JValue

/-- Platform primitives the engine depends on, injected as in the spec's
"inject clock as a parameter" instruction: `isoString n` is
`new Date(n).toISOString()`, `dateVal v` is `new Date(v).getTime()` (the
sort key of the merge), `jsonParse` is `JSON.parse` (`none` = throws). -/
structure JsPrims where
  isoString : Nat → String
  dateVal : JValue → Int
  jsonParse : String → Option JValue

/-- A JavaScript value is nullish iff it is `null` or `undefined` (the
values skipped by the `??` operator and rejected by property access). -/
def isNullish : JValue → Bool
  | .jnull => true
  | .jundefined => true
  | _ => false

/-- A JavaScript value is falsy (`null`, `undefined`, `false`, `0`, `""`). -/
def isFalsy : JValue → Bool
  | .jnull => true
  | .jundefined => true
  | .jbool false => true
  | .jnum 0 => true
  | .jstr "" => true
  | _ => false

/-- The one JavaScript error the engine can raise internally. -/
inductive JsError where
  | typeError : JsError

/-- JavaScript property access `a.f`: throws a `TypeError` when the receiver
is `null` or `undefined`, yields the field (or `undefined`) otherwise. -/
def getField : JValue → String → Except JsError JValue
  | .jnull, _ => .error .typeError
  | .jundefined, _ => .error .typeError
  | .jobj fs, k => .ok ((fs.lookup k).getD .jundefined)
  | _, _ => .ok .jundefined

/-- Total variant of property access used to state specifications: yields
`undefined` instead of throwing. -/
def objField (a : JValue) (k : String) : JValue :=
  match a with
  | .jobj fs => (fs.lookup k).getD .jundefined
  | _ => .jundefined

/-- The nullish-coalescing operator `v ?? d`. -/
def coalesce (v d : JValue) : JValue :=
  if isNullish v then d else v

mutual

/-- JavaScript string coercion `String(v)`. -/
def jsToString : JValue → String
  | .jnull => "null"
  | .jundefined => "undefined"
  | .jbool true => "true"
  | .jbool false => "false"
  | .jnum n => toString n
  | .jstr s => s
  | .jarr xs => String.intercalate "," (jsToStringList xs)
  | .jobj _ => "[object Object]"

/-- The `Array.prototype.join(",")` element coercion: `null` and `undefined`
become the empty string. -/
def jsToStringList : List JValue → List String
  | [] => []
  | .jnull :: vs => "" :: jsToStringList vs
  | .jundefined :: vs => "" :: jsToStringList vs
  | v :: vs => jsToString v :: jsToStringList vs

end

/-- A normalized article record: the object shape produced by
`normalizeArray` in `src/server.js` (fields `id`, `headline`, `content`,
`createdAt`, each holding whatever JavaScript value the resolution chain
produced). -/
structure Article where
  id : JValue
  headline : JValue
  content : JValue
  createdAt : JValue

/-- The normalized record viewed again as a JavaScript object, with the
fields in the construction order of the object literal in the source. -/
def Article.toJ (a : Article) : JValue :=
  .jobj [("id", a.id), ("headline", a.headline),
         ("content", a.content), ("createdAt", a.createdAt)]

/-- One step of `normalizeArray`'s `arr.map((a, i) => ({...}))` from
`src/server.js`: the field accesses of the object literal, in source order,
then the `??` chains
`a.id ?? a.index ?? a._id ?? Date.now() + "-" + i`,
`a.headline ?? a.title ?? "Untitled"`, `a.content ?? ""`,
`a.createdAt ?? new Date().toISOString()`.  (The `??` chain is lazy in
JavaScript, but every access on the same non-nullish receiver succeeds, so
the eager `Except` chain below throws exactly when the source throws:
iff the record itself is `null` or `undefined`.) -/
def normalizeOne (p : JsPrims) (now : Nat) (i : Nat) (a : JValue) :
    Except JsError Article := do
  let v1 ← getField a "id"
  let v2 ← getField a "index"
  let v3 ← getField a "_id"
  let h1 ← getField a "headline"
  let h2 ← getField a "title"
  let c1 ← getField a "content"
  let d1 ← getField a "createdAt"
  .ok { id := coalesce v1 (coalesce v2 (coalesce v3
            (.jstr (toString now ++ "-" ++ toString i)))),
        headline := coalesce h1 (coalesce h2 (.jstr "Untitled")),
        content := coalesce c1 (.jstr ""),
        createdAt := coalesce d1 (.jstr (p.isoString now)) }

/-- The indexed map underlying `normalizeArray`. -/
def normalizeGo (p : JsPrims) (now : Nat) : Nat → List JValue →
    Except JsError (List Article)
  | _, [] => .ok []
  | i, a :: rest => do
      let r ← normalizeOne p now i a
      let rs ← normalizeGo p now (i + 1) rest
      .ok (r :: rs)

/-- The wrapping step `Array.isArray(input) ? input : [input]`. -/
def jsElems : JValue → List JValue
  | .jarr xs => xs
  | v => [v]

/-- Function `normalizeArray` from `src/server.js`: wraps a non-array input into a
singleton array, then maps each record to its normalized shape. -/
def normalizeArray (p : JsPrims) (now : Nat) (input : JValue) :
    Except JsError (List Article) :=
  normalizeGo p now 0 (jsElems input)

/-- The deduplication key of an article: `String(a.id)`. -/
def artKey (a : Article) : String :=
  jsToString a.id

/-- A JavaScript `Map` from strings to articles, modelled as an
insertion-ordered association list with pairwise-distinct keys. -/
abbrev JMap : Type :=
  List (String × Article)

/-- Operation `Map.prototype.set`: replace the value in place when the key exists,
append a fresh entry otherwise (JavaScript maps preserve the position of
first insertion on overwrite). -/
def setEntry : JMap → String → Article → JMap
  | [], k, v => [(k, v)]
  | (k', v') :: m, k, v =>
      if k' = k then (k, v) :: m else (k', v') :: setEntry m k v

/-- Operation `Map.prototype.get` (as an `Option`). -/
def mapLookup : JMap → String → Option Article
  | [], _ => none
  | (k', v') :: m, k => if k' = k then some v' else mapLookup m k

/-- Operation `Map.prototype.has`. -/
def mapHasKey (m : JMap) (k : String) : Bool :=
  (mapLookup m k).isSome

/-- Operation `Array.from(m.values())`: the values in insertion order. -/
def mapValues (m : JMap) : List Article :=
  m.map Prod.snd

/-- The seeding `new Map(normalized.map(a => [String(a.id), a]))`: the id-keyed map
seeded from the feed set (on duplicate ids the later entry overwrites). -/
def seedMap (feed : List Article) : JMap :=
  feed.foldl (fun m a => setEntry m (artKey a) a) []

/-- The loop `cache.articles.forEach(a => { if (!byId.has(String(a.id)))
byId.set(String(a.id), a); })`: adds the store entries whose id the feed
does not know; on duplicate store ids only the first occurrence enters. -/
def addLocals (m : JMap) (store : List Article) : JMap :=
  store.foldl
    (fun m a => if mapHasKey m (artKey a) then m else setEntry m (artKey a) a)
    m

/-- The comparator of
`.sort((a, b) => new Date(b.createdAt) - new Date(a.createdAt))`:
keep `a` before `b` iff the date value of `b` is at most that of `a`
(descending by `createdAt`, stable like the JavaScript sort). -/
def createdDesc (dv : JValue → Int) (a b : Article) : Bool :=
  dv b.createdAt ≤ dv a.createdAt

/-- The merge of `refreshFromFeed` in `src/server.js`: seed an id-keyed map
from the normalized feed set, add the store articles with unseen ids, then
sort the values descending by `createdAt`. -/
def mergeKeepingLocalOnly (dv : JValue → Int) (feed store : List Article) :
    List Article :=
  (mapValues (addLocals (seedMap feed) store)).mergeSort (createdDesc dv)

/-- The last article of a feed list carrying a given key — the value a
JavaScript map seeded from the list associates to that key. -/
def lastWithKey : List Article → String → Option Article
  | [], _ => none
  | a :: rest, k =>
      match lastWithKey rest k with
      | some b => some b
      | none => if artKey a = k then some a else none

/-- The first article of a store list carrying a given key — the only store
occurrence of that key that survives the merge. -/
def firstWithKey : List Article → String → Option Article
  | [], _ => none
  | a :: rest, k => if artKey a = k then some a else firstWithKey rest k

/-- The environment configuration recognized by `src/server.js` (`""` means
"not configured", matching the `|| ""` defaults and the truthiness tests
`if (!N8N_FEED_URL)`, `!!N8N_WEBHOOK_URL`).  `refreshMs` is an integer so
that non-positive configured windows are representable. -/
structure Config where
  feedUrl : String
  webhookUrl : String
  refreshMs : Int

/-- The mutable module state of `src/server.js` that the engine's
operations read and write: `cache.articles` and `lastRefresh`. -/
structure SyncState where
  articles : List Article
  lastRefresh : Nat

/-- The possible outcomes of the timeout-guarded outbound feed fetch in
`refreshFromFeed`: the fetch promise rejects (network failure, or the
2000 ms `AbortController` timeout firing), the response arrives with
`res.ok` false (non-2xx status), `res.json()` rejects (JSON parse
failure), or a parsed body is obtained. -/
inductive FeedResult where
  | netError : FeedResult
  | httpError : FeedResult
  | parseError : FeedResult
  | success : JValue → FeedResult

/-- Every feed outcome other than a successful 2xx response with a
parseable JSON body. -/
def FeedResult.isFailure : FeedResult → Bool
  | .netError => true
  | .httpError => true
  | .parseError => true
  | .success _ => false

/-- The body of the `try` block of `refreshFromFeed` after the fetch
succeeded with parsed `data`:
`const list = Array.isArray(data) ? data : (data.articles || []);`
then normalization and the id-keyed merge.  Any throw (property access on
a nullish `data`, or a nullish record inside the list) is propagated to
the surrounding `catch`. -/
def refreshBody (p : JsPrims) (st : SyncState) (data : JValue) (now : Nat) :
    Except JsError (List Article) := do
  let list : JValue ←
    match data with
    | .jarr xs => .ok (.jarr xs)
    | _ => do
        let v ← getField data "articles"
        .ok (if isFalsy v then .jarr [] else v)
  let normalized ← normalizeArray p now list
  .ok (mergeKeepingLocalOnly p.dateVal normalized st.articles)

/-- Function `refreshFromFeed` from `src/server.js`: returns immediately (after
stamping `lastRefresh`) when no feed endpoint is configured; otherwise
runs the fetch under `try { ... } catch { } finally { lastRefresh =
Date.now(); }` — every failure is swallowed, the store is reassigned only
when the whole body succeeded, and `lastRefresh` is stamped on every path.
The function is total: the source never lets an exception escape. -/
def refreshFromFeed (p : JsPrims) (cfg : Config) (st : SyncState)
    (r : FeedResult) (now : Nat) : SyncState :=
  if cfg.feedUrl = "" then { st with lastRefresh := now }
  else
    match r with
    | .success data =>
        match refreshBody p st data now with
        | .ok arts => { articles := arts, lastRefresh := now }
        | .error _ => { st with lastRefresh := now }
    | _ => { st with lastRefresh := now }

/-- The staleness test of `refreshIfStale` in `src/server.js`:
`!lastRefresh || (REFRESH_MS > 0 && (now - lastRefresh) > REFRESH_MS)`. -/
def shouldRefresh (cfg : Config) (lastRefresh now : Nat) : Bool :=
  lastRefresh = 0 ||
    (cfg.refreshMs > 0 && (now : Int) - (lastRefresh : Int) > cfg.refreshMs)

/-- Function `refreshIfStale` from `src/server.js`; the second component counts how
many times `refreshFromFeed` (the spec's `sync()`) was invoked. -/
def refreshIfStale (p : JsPrims) (cfg : Config) (st : SyncState)
    (r : FeedResult) (now : Nat) : SyncState × Nat :=
  if shouldRefresh cfg st.lastRefresh now then
    (refreshFromFeed p cfg st r now, 1)
  else
    (st, 0)

/-- The responses the `POST /api/articles` handler of `src/server.js` can
send. -/
inductive PostOutcome where
  | badRequest : String → PostOutcome
  | created : Nat → List Article → Bool → PostOutcome

/-- The `POST /api/articles` handler of `src/server.js`: `400` on a falsy
body, otherwise normalize the payload, prepend it to the store, and answer
`201` with `forward.forwarded = !!N8N_WEBHOOK_URL` (the forward itself is
fire-and-forget and never touches the store or the response).  A throw
inside `normalizeArray` escapes the handler (Express turns it into a 500);
it is modelled by the `Except` error. -/
def postArticles (p : JsPrims) (cfg : Config) (st : SyncState)
    (payload : JValue) (now : Nat) :
    Except JsError (PostOutcome × SyncState) :=
  if isFalsy payload then .ok (.badRequest "Missing body", st)
  else do
    let normalized ← normalizeArray p now payload
    .ok (.created normalized.length normalized (cfg.webhookUrl ≠ ""),
         { st with articles := normalized ++ st.articles })

/-- The `GET /api/articles` read: the handler serializes `cache.articles`
as the `articles` field of the response. -/
def getArticles (st : SyncState) : List Article :=
  st.articles

/-- The rejection reasons of `readJSON` in `src/api/[...all].js`. -/
inductive ReadErr where
  | tooLarge : ReadErr
  | invalidJson : ReadErr

/-- The chunk loop of `readJSON`: accumulate the body, adding each chunk's
length to the running size, and reject with `payload_too_large` as soon as
the running size exceeds the cap (the request is destroyed, later chunks
never arrive). -/
def readJSONLoop (limit : Nat) : Nat → String → List String →
    Except ReadErr (Option String)
  | _, buf, [] => .ok (if buf = "" then none else some buf)
  | size, buf, c :: rest =>
      if size + c.length > limit then .error .tooLarge
      else readJSONLoop limit (size + c.length) (buf ++ c) rest

/-- Function `readJSON` from `src/api/[...all].js`: read the chunked body under the
size cap (the route uses the source's default cap of `1 * 1024 * 1024`
bytes), resolve `null` on an empty body, parse the accumulated text
otherwise and reject with `invalid_json` on a parse failure. -/
def readJSON (p : JsPrims) (chunks : List String) (limit : Nat) :
    Except ReadErr (Option JValue) :=
  match readJSONLoop limit 0 "" chunks with
  | .error e => .error e
  | .ok none => .ok none
  | .ok (some s) =>
      match p.jsonParse s with
      | some v => .ok (some v)
      | none => .error .invalidJson

/-- The responses of the `POST /api/articles` route of
`src/api/[...all].js`. -/
inductive RouteOutcome where
  | resp413 : String → RouteOutcome
  | resp400 : String → RouteOutcome
  | resp201 : Nat → List Article → Bool → RouteOutcome

/-- The `POST /api/articles` route of `src/api/[...all].js`: `readJSON`
errors map to `413 {error:"Payload too large"}` and
`400 {error:"Invalid JSON"}` before the store is touched, a resolved
`null` body maps to `400 {error:"Missing body"}`; otherwise the payload is
normalized and prepended exactly as in the Express variant. -/
def postRoute (p : JsPrims) (cfg : Config) (st : SyncState)
    (chunks : List String) (now : Nat) :
    Except JsError (RouteOutcome × SyncState) :=
  match readJSON p chunks (1 * 1024 * 1024) with
  | .error .tooLarge => .ok (.resp413 "Payload too large", st)
  | .error .invalidJson => .ok (.resp400 "Invalid JSON", st)
  | .ok none => .ok (.resp400 "Missing body", st)
  | .ok (some body) => do
      let normalized ← normalizeArray p now body
      .ok (.resp201 normalized.length normalized (cfg.webhookUrl ≠ ""),
           { st with articles := normalized ++ st.articles })

/-- The claim-side field resolution of the Normalizer: the first present
and non-null field of a preference list, else a default (the spec's
"first-present-of", with "present" read as present-and-non-nullish, the
semantics of the `??` operator the spec describes). -/
def firstNonNullish : List JValue → JValue → JValue
  | [], d => d
  | v :: vs, d => if isNullish v then firstNonNullish vs d else v

/-- The spec's description of one normalized record (§4.1): id from
`{id, index, alternateId}` (the source spells the alternate-id field
`_id`) else `"<currentEpochMillis>-<positionInBatch>"`; headline from
`{headline, title}` else `"Untitled"`; content from `{content}` else
`""`; createdAt from `{createdAt}` else the current timestamp. -/
def specResolve (p : JsPrims) (now : Nat) (i : Nat) (a : JValue) : Article :=
  { id := firstNonNullish [objField a "id", objField a "index",
            objField a "_id"] (.jstr (toString now ++ "-" ++ toString i)),
    headline := firstNonNullish [objField a "headline", objField a "title"]
            (.jstr "Untitled"),
    content := firstNonNullish [objField a "content"] (.jstr ""),
    createdAt := firstNonNullish [objField a "createdAt"]
            (.jstr (p.isoString now)) }

/-- Concrete primitives for witnesses: a decimal-rendering clock and a
date valuation reading numeric timestamps. -/
def prims0 : JsPrims :=
  { isoString := fun n => toString n,
    dateVal := fun v => match v with | .jnum n => n | _ => 0,
    jsonParse := fun _ => none }

/-! ## Feed synchronizer: error atomicity and timestamp stamping -/

/-- C3: `sync()` (`refreshFromFeed`) never throws — it is a total function
of its inputs, every internal failure being absorbed by the source's
`catch`/`finally` — and after every call, whatever the outcome (success,
HTTP error, network failure or timeout, malformed payload, or no feed
endpoint configured at all), `lastRefresh` has been updated to the
current time. -/
theorem refreshFromFeed_always_stamps (p : JsPrims) (cfg : Config)
    (st : SyncState) (r : FeedResult) (now : Nat) :
    (refreshFromFeed p cfg st r now).lastRefresh = now := by
  unfold refreshFromFeed
  split
  · rfl
  · cases r with
    | netError => rfl
    | httpError => rfl
    | parseError => rfl
    | success data => cases h : refreshBody p st data now <;> simp [h]

/-- C2: for every outcome of the outbound feed fetch other than a
successful 2xx response with a parseable JSON body — timeout or network
failure (`netError`), non-2xx status (`httpError`), or JSON parse failure
(`parseError`) — the store `cache.articles` after `refreshFromFeed` equals
the store before the call. -/
theorem refreshFromFeed_failure_preserves_store (p : JsPrims) (cfg : Config)
    (st : SyncState) (r : FeedResult) (now : Nat)
    (h : r.isFailure = true) :
    (refreshFromFeed p cfg st r now).articles = st.articles := by
  unfold refreshFromFeed
  split
  · rfl
  · cases r with
    | netError => rfl
    | httpError => rfl
    | parseError => rfl
    | success data => simp [FeedResult.isFailure] at h

/-- Witness for C2: a concrete HTTP-500 outcome leaves a concrete
one-article store unchanged (and `lastRefresh` still advances, per C3). -/
theorem refreshFromFeed_failure_witness :
    (FeedResult.httpError.isFailure = true) ∧
    (refreshFromFeed prims0 ⟨"http://feed", "", 60000⟩
      ⟨[⟨.jstr "a", .jstr "H", .jstr "C", .jnum 1⟩], 0⟩
      FeedResult.httpError 5).articles
      = [⟨.jstr "a", .jstr "H", .jstr "C", .jnum 1⟩] :=
  ⟨rfl, refreshFromFeed_failure_preserves_store prims0
    ⟨"http://feed", "", 60000⟩
    ⟨[⟨.jstr "a", .jstr "H", .jstr "C", .jnum 1⟩], 0⟩
    FeedResult.httpError 5 rfl⟩

/-! ## Refresh scheduler -/

/-- C4: one call to `refreshIfStale` invokes `sync()` (`refreshFromFeed`)
at most once, and invokes it zero times whenever a refresh has completed
before (`lastRefresh ≠ 0`) and the staleness window has not elapsed
(`now - lastRefresh ≤ REFRESH_MS`). -/
theorem refreshIfStale_at_most_once (p : JsPrims) (cfg : Config)
    (st : SyncState) (r : FeedResult) (now : Nat) :
    (refreshIfStale p cfg st r now).2 ≤ 1 ∧
      (st.lastRefresh ≠ 0 →
        (now : Int) - (st.lastRefresh : Int) ≤ cfg.refreshMs →
        (refreshIfStale p cfg st r now).2 = 0) := by
  constructor
  · unfold refreshIfStale
    split <;> simp
  · intro h1 h2
    have hs : shouldRefresh cfg st.lastRefresh now = false := by
      simp only [shouldRefresh, Bool.or_eq_false_iff, Bool.and_eq_false_iff,
        decide_eq_false_iff_not]
      constructor
      · exact h1
      · right
        omega
    simp [refreshIfStale, hs]

/-- Witness for C4: with the default 60000 ms window, a refresh stamped at
time 100 and a request at time 200, no synchronization happens. -/
theorem refreshIfStale_at_most_once_witness :
    ((100 : Nat) ≠ 0) ∧ ((200 : Int) - (100 : Int) ≤ (60000 : Int)) ∧
    (refreshIfStale prims0 ⟨"http://feed", "", 60000⟩
      ⟨[], 100⟩ FeedResult.netError 200).2 = 0 :=
  ⟨by decide, by decide,
    (refreshIfStale_at_most_once prims0 ⟨"http://feed", "", 60000⟩
      ⟨[], 100⟩ FeedResult.netError 200).2
      (by decide) (by decide)⟩

/-- C10: once some synchronization has completed (`lastRefresh ≠ 0`), a
non-positive configured staleness window (`REFRESH_MS ≤ 0`) makes
`refreshIfStale` never invoke `sync()`: the `REFRESH_MS > 0` guard fails,
so only the never-refreshed case could trigger a refresh. -/
theorem refreshIfStale_nonpositive_window (p : JsPrims) (cfg : Config)
    (st : SyncState) (r : FeedResult) (now : Nat)
    (h1 : cfg.refreshMs ≤ 0) (h2 : st.lastRefresh ≠ 0) :
    (refreshIfStale p cfg st r now).2 = 0 := by
  have hs : shouldRefresh cfg st.lastRefresh now = false := by
    simp only [shouldRefresh, Bool.or_eq_false_iff, Bool.and_eq_false_iff,
      decide_eq_false_iff_not]
    constructor
    · exact h2
    · left
      omega
  simp [refreshIfStale, hs]

/-- Witness for C10: with `REFRESH_MS = 0` and a refresh stamped at time 1,
even a request in the far future triggers no synchronization. -/
theorem refreshIfStale_nonpositive_window_witness :
    ((0 : Int) ≤ 0) ∧ ((1 : Nat) ≠ 0) ∧
    (refreshIfStale prims0 ⟨"http://feed", "", 0⟩
      ⟨[], 1⟩ FeedResult.netError 999999999).2 = 0 :=
  ⟨by decide, by decide,
    refreshIfStale_nonpositive_window prims0 ⟨"http://feed", "", 0⟩
      ⟨[], 1⟩ FeedResult.netError 999999999
      (by decide) (by decide)⟩

/-! ## Write path -/

/-- C8: posting `{"headline":"New","content":"Body"}` with no webhook
endpoint configured answers `201` with `forward.forwarded = false` and one
inserted item — the normalized article with synthesized id
`"<now>-0"`, headline `"New"`, content `"Body"` and the current timestamp —
and the store afterwards (what a subsequent `GET /api/articles`
serializes) has that article as its first element. -/
theorem postArticles_no_webhook (p : JsPrims) (cfg : Config)
    (st : SyncState) (now : Nat) (h : cfg.webhookUrl = "") :
    postArticles p cfg st
        (.jobj [("headline", .jstr "New"), ("content", .jstr "Body")]) now
      = .ok (.created 1
          [⟨.jstr (toString now ++ "-" ++ toString 0), .jstr "New",
            .jstr "Body", .jstr (p.isoString now)⟩] false,
          ⟨⟨.jstr (toString now ++ "-" ++ toString 0), .jstr "New",
            .jstr "Body", .jstr (p.isoString now)⟩ :: st.articles,
           st.lastRefresh⟩) ∧
    (getArticles ⟨⟨.jstr (toString now ++ "-" ++ toString 0), .jstr "New",
        .jstr "Body", .jstr (p.isoString now)⟩ :: st.articles,
        st.lastRefresh⟩).head?
      = some ⟨.jstr (toString now ++ "-" ++ toString 0), .jstr "New",
          .jstr "Body", .jstr (p.isoString now)⟩ := by
  obtain ⟨f, w, m⟩ := cfg
  simp only at h
  subst h
  exact ⟨rfl, rfl⟩

/-- Witness for C8 at a concrete clock and empty prior store. -/
theorem postArticles_no_webhook_witness :
    ((⟨"", "", 60000⟩ : Config).webhookUrl = "") ∧
    (postArticles prims0 ⟨"", "", 60000⟩ ⟨[], 0⟩
        (.jobj [("headline", .jstr "New"), ("content", .jstr "Body")]) 7
      = .ok (.created 1
          [⟨.jstr "7-0", .jstr "New", .jstr "Body", .jstr "7"⟩] false,
          ⟨[⟨.jstr "7-0", .jstr "New", .jstr "Body", .jstr "7"⟩], 0⟩)) ∧
    (getArticles ⟨[⟨.jstr "7-0", .jstr "New", .jstr "Body", .jstr "7"⟩],
        0⟩).head?
      = some ⟨.jstr "7-0", .jstr "New", .jstr "Body", .jstr "7"⟩ :=
  ⟨rfl,
   (postArticles_no_webhook prims0 ⟨"", "", 60000⟩ ⟨[], 0⟩ 7 rfl).1,
   (postArticles_no_webhook prims0 ⟨"", "", 60000⟩ ⟨[], 0⟩ 7 rfl).2⟩

/-- The chunk loop rejects with `payload_too_large` as soon as the running
size exceeds the cap; in particular it rejects whenever the whole body is
over the cap. -/
theorem readJSONLoop_overflow (limit : Nat) :
    ∀ (chunks : List String) (size : Nat) (buf : String),
      size ≤ limit → size + (chunks.map String.length).sum > limit →
      readJSONLoop limit size buf chunks = .error .tooLarge := by
  intro chunks
  induction chunks with
  | nil =>
      intro size buf h1 h2
      simp at h2
      omega
  | cons c rest ih =>
      intro size buf h1 h2
      simp only [List.map_cons, List.sum_cons] at h2
      unfold readJSONLoop
      split
      · rfl
      · rename_i hle
        exact ih (size + c.length) (buf ++ c) (by omega) (by omega)

/-- C9: a `POST /api/articles` whose body exceeds the 1 MB cap is answered
`413 {error:"Payload too large"}` and the store is untouched by the
request. -/
theorem postRoute_payload_too_large (p : JsPrims) (cfg : Config)
    (st : SyncState) (chunks : List String) (now : Nat)
    (h : (chunks.map String.length).sum > 1 * 1024 * 1024) :
    postRoute p cfg st chunks now
      = .ok (.resp413 "Payload too large", st) := by
  have hr : readJSON p chunks (1 * 1024 * 1024) = .error .tooLarge := by
    unfold readJSON
    rw [readJSONLoop_overflow (1 * 1024 * 1024) chunks 0 ""
      (by omega) (by omega)]
  simp [postRoute, hr]

/-- Witness for C9: a single chunk of 1048577 bytes (one over the cap)
gets `413 {error:"Payload too large"}` and leaves the store as it was. -/
theorem postRoute_payload_too_large_witness :
    (([String.mk (List.replicate 1048577 'a')].map String.length).sum
        > 1 * 1024 * 1024) ∧
    postRoute prims0 ⟨"", "", 60000⟩ ⟨[], 0⟩
        [String.mk (List.replicate 1048577 'a')] 0
      = .ok (.resp413 "Payload too large", ⟨[], 0⟩) := by
  have hlen : (String.mk (List.replicate 1048577 'a')).length = 1048577 := by
    rw [String.length]
    exact List.length_replicate 1048577 'a'
  have h : (([String.mk (List.replicate 1048577 'a')]).map String.length).sum
      > 1 * 1024 * 1024 := by
    simp only [List.map_cons, List.map_nil, List.sum_cons, List.sum_nil, hlen]
    omega
  exact ⟨h, postRoute_payload_too_large prims0 ⟨"", "", 60000⟩ ⟨[], 0⟩
    [String.mk (List.replicate 1048577 'a')] 0 h⟩

/-! ## Normalizer -/

theorem okBind {α β ε : Type} (a : α) (f : α → Except ε β) :
    (Except.ok a >>= f) = f a :=
  rfl

theorem errorBind {α β ε : Type} (e : ε) (f : α → Except ε β) :
    (Except.error e >>= f : Except ε β) = .error e :=
  rfl

theorem isNullish_firstNonNullish (vs : List JValue) (d : JValue)
    (h : isNullish d = false) : isNullish (firstNonNullish vs d) = false := by
  induction vs with
  | nil => exact h
  | cons v vs ih =>
      unfold firstNonNullish
      split
      · exact ih
      · simp_all

/-- C6: on every non-nullish record (property access on `null` or
`undefined` throws, see C5), `normalizeArray`'s per-record step resolves
the four output fields exactly as the spec states: id as the first
present non-null of `id`, `index`, `_id` (the alternate-id field), else
the synthesized `"<currentEpochMillis>-<positionInBatch>"` string;
headline as the first present non-null of `headline`, `title`, else
`"Untitled"`; content as `content`, else `""`; createdAt as `createdAt`,
else the current timestamp. -/
theorem normalizeOne_resolves_fields (p : JsPrims) (now i : Nat)
    (a : JValue) (h : isNullish a = false) :
    normalizeOne p now i a = .ok (specResolve p now i a) := by
  cases a <;> first
    | rfl
    | simp [isNullish] at h

/-- Witness for C6: a record carrying only `title` and an explicit `null`
`content` resolves to the `title` headline, the empty-string content, the
synthesized id and the current timestamp. -/
theorem normalizeOne_resolves_fields_witness :
    (isNullish (.jobj [("title", .jstr "T"), ("content", .jnull)]) = false) ∧
    (specResolve prims0 7 0 (.jobj [("title", .jstr "T"), ("content", .jnull)])
      = ⟨.jstr "7-0", .jstr "T", .jstr "", .jstr "7"⟩) ∧
    normalizeOne prims0 7 0 (.jobj [("title", .jstr "T"), ("content", .jnull)])
      = .ok (specResolve prims0 7 0
          (.jobj [("title", .jstr "T"), ("content", .jnull)])) :=
  ⟨rfl, rfl,
   normalizeOne_resolves_fields prims0 7 0
     (.jobj [("title", .jstr "T"), ("content", .jnull)]) rfl⟩

theorem normalizeOne_ok_receiver (p : JsPrims) (now i : Nat) (a : JValue)
    (r : Article) (h : normalizeOne p now i a = .ok r) :
    isNullish a = false := by
  cases a <;> first
    | rfl
    | simp [normalizeOne, getField, errorBind] at h

theorem specResolve_fields (p : JsPrims) (now i : Nat) (a : JValue) :
    isNullish (specResolve p now i a).id = false ∧
    isNullish (specResolve p now i a).headline = false ∧
    isNullish (specResolve p now i a).content = false ∧
    isNullish (specResolve p now i a).createdAt = false :=
  ⟨isNullish_firstNonNullish _ _ rfl, isNullish_firstNonNullish _ _ rfl,
   isNullish_firstNonNullish _ _ rfl, isNullish_firstNonNullish _ _ rfl⟩

/-- A record whose four canonical fields are present and non-nullish is a
fixed point of the per-record normalization step, at any clock and any
position. -/
theorem normalizeOne_fixed_point (p : JsPrims) (now i : Nat) (r : Article)
    (h1 : isNullish r.id = false) (h2 : isNullish r.headline = false)
    (h3 : isNullish r.content = false)
    (h4 : isNullish r.createdAt = false) :
    normalizeOne p now i (Article.toJ r) = .ok r := by
  obtain ⟨v1, v2, v3, v4⟩ := r
  simp only [] at h1 h2 h3 h4
  simp [normalizeOne, Article.toJ, getField, List.lookup, coalesce, okBind,
    h1, h2, h3, h4]

theorem normalizeGo_fixed_point (p : JsPrims) (now : Nat) :
    ∀ (xs : List JValue) (i : Nat) (ys : List Article),
      normalizeGo p now i xs = .ok ys →
      ∀ (now2 j : Nat),
        normalizeGo p now2 j (ys.map Article.toJ) = .ok ys := by
  intro xs
  induction xs with
  | nil =>
      intro i ys h now2 j
      unfold normalizeGo at h
      cases h
      rfl
  | cons a rest ih =>
      intro i ys h now2 j
      unfold normalizeGo at h
      cases e1 : normalizeOne p now i a with
      | error err => rw [e1, errorBind] at h; exact absurd h (by simp)
      | ok r =>
          rw [e1, okBind] at h
          cases e2 : normalizeGo p now (i + 1) rest with
          | error err => rw [e2, errorBind] at h; exact absurd h (by simp)
          | ok rs =>
              rw [e2, okBind] at h
              injection h with h
              subst h
              have ha := normalizeOne_ok_receiver p now i a r e1
              have hspec := normalizeOne_resolves_fields p now i a ha
              rw [hspec] at e1
              injection e1 with e1
              subst e1
              obtain ⟨f1, f2, f3, f4⟩ := specResolve_fields p now i a
              simp only [List.map_cons]
              unfold normalizeGo
              rw [normalizeOne_fixed_point p now2 j _ f1 f2 f3 f4, okBind,
                ih (i + 1) rs e2 now2 (j + 1), okBind]

/-- C7: normalization is idempotent — feeding `normalizeArray`'s output
(as the array of its record objects) back through `normalizeArray`, at the
same or any other clock, reproduces it unchanged; in particular every
already-normalized record is a fixed point. -/
theorem normalizeArray_idem (p : JsPrims) (now : Nat) (x : JValue)
    (ys : List Article) (h : normalizeArray p now x = .ok ys)
    (now2 : Nat) :
    normalizeArray p now2 (.jarr (ys.map Article.toJ)) = .ok ys := by
  unfold normalizeArray at h ⊢
  exact normalizeGo_fixed_point p now (jsElems x) 0 ys h now2 0

/-- Witness for C7 at a concrete sparse record. -/
theorem normalizeArray_idem_witness :
    (normalizeArray prims0 3 (.jobj [("headline", .jstr "H")])
      = .ok [⟨.jstr "3-0", .jstr "H", .jstr "", .jstr "3"⟩]) ∧
    normalizeArray prims0 99
        (.jarr ([⟨.jstr "3-0", .jstr "H", .jstr "", .jstr "3"⟩].map
          Article.toJ))
      = .ok [⟨.jstr "3-0", .jstr "H", .jstr "", .jstr "3"⟩] :=
  ⟨rfl,
   normalizeArray_idem prims0 3 (.jobj [("headline", .jstr "H")])
     [⟨.jstr "3-0", .jstr "H", .jstr "", .jstr "3"⟩] rfl 99⟩

/-- Counterexample to C5 as stated: normalization is not total — on the
input `null` (or any sequence containing a `null` or `undefined` record)
the property accesses of the per-record step throw a `TypeError`, so no
result sequence is produced. -/
theorem normalizeArray_throws_on_null :
    normalizeArray prims0 0 JValue.jnull = .error .typeError :=
  rfl

/-- C5 as amended: for every input none of whose wrapped records is `null`
or `undefined` — a single record or a sequence, however malformed or
sparse the records are otherwise — `normalizeArray` produces a result
sequence without throwing. -/
theorem normalizeArray_total_on_records (p : JsPrims) (now : Nat)
    (input : JValue) (h : ∀ a ∈ jsElems input, isNullish a = false) :
    ∃ ys, normalizeArray p now input = .ok ys := by
  unfold normalizeArray
  have aux : ∀ (xs : List JValue), (∀ a ∈ xs, isNullish a = false) →
      ∀ i, ∃ ys, normalizeGo p now i xs = .ok ys := by
    intro xs
    induction xs with
    | nil => exact fun _ i => ⟨[], rfl⟩
    | cons a rest ih =>
        intro hx i
        obtain ⟨ys, hys⟩ := ih (fun b hb => hx b (List.mem_cons_of_mem a hb))
          (i + 1)
        refine ⟨specResolve p now i a :: ys, ?_⟩
        unfold normalizeGo
        rw [normalizeOne_resolves_fields p now i a
          (hx a (List.mem_cons_self a rest)), hys]
        rfl
  exact aux (jsElems input) h 0

/-- Witness for C5 (amended): a sequence of a field-free object and a bare
string — both malformed as articles, neither nullish — normalizes without
throwing. -/
theorem normalizeArray_total_witness :
    (∀ a ∈ jsElems (.jarr [.jobj [], .jstr "x"]), isNullish a = false) ∧
    ∃ ys, normalizeArray prims0 5 (.jarr [.jobj [], .jstr "x"]) = .ok ys :=
  ⟨by decide,
   normalizeArray_total_on_records prims0 5 (.jarr [.jobj [], .jstr "x"])
     (by decide)⟩

/-! ## Article store: the id-keyed merge -/

theorem mapLookup_setEntry (m : JMap) (k q : String) (v : Article) :
    mapLookup (setEntry m k v) q = if q = k then some v else mapLookup m q := by
  induction m with
  | nil =>
      by_cases h : q = k
      · subst h
        simp [setEntry, mapLookup]
      · simp [setEntry, mapLookup, h, Ne.symm h]
  | cons e m ih =>
      obtain ⟨a, b⟩ := e
      by_cases hak : a = k
      · subst hak
        by_cases hq : q = a
        · subst hq
          simp [setEntry, mapLookup]
        · simp [setEntry, mapLookup, hq, Ne.symm hq]
      · by_cases hq : a = q
        · subst hq
          simp [setEntry, mapLookup, hak, Ne.symm hak]
        · simp [setEntry, mapLookup, hak, hq, ih]

theorem keys_setEntry (m : JMap) (k : String) (v : Article) :
    (setEntry m k v).map Prod.fst =
      if k ∈ m.map Prod.fst then m.map Prod.fst
      else m.map Prod.fst ++ [k] := by
  induction m with
  | nil => simp [setEntry]
  | cons e m ih =>
      obtain ⟨a, b⟩ := e
      by_cases hak : a = k
      · subst hak
        simp [setEntry]
      · by_cases hk : k ∈ m.map Prod.fst
        · simp [setEntry, hak, ih, hk, Ne.symm hak]
        · simp [setEntry, hak, ih, hk, Ne.symm hak]

theorem nodup_keys_setEntry (m : JMap) (k : String) (v : Article)
    (h : (m.map Prod.fst).Nodup) :
    ((setEntry m k v).map Prod.fst).Nodup := by
  rw [keys_setEntry]
  split
  · exact h
  · rename_i hk
    simp [List.nodup_append, h, hk]

theorem mapLookup_mem (m : JMap) (q : String) (v : Article)
    (h : mapLookup m q = some v) : (q, v) ∈ m := by
  induction m with
  | nil => simp [mapLookup] at h
  | cons e m ih =>
      obtain ⟨a, b⟩ := e
      by_cases hq : a = q
      · subst hq
        simp [mapLookup] at h
        simp [h]
      · simp [mapLookup, hq] at h
        exact List.mem_cons_of_mem _ (ih h)

theorem values_of_lookup (m : JMap) (q : String) (v : Article)
    (h : mapLookup m q = some v) : v ∈ mapValues m := by
  have := mapLookup_mem m q v h
  exact List.mem_map.mpr ⟨(q, v), this, rfl⟩

theorem lookup_of_values (m : JMap) (v : Article)
    (hnd : (m.map Prod.fst).Nodup) (h : v ∈ mapValues m) :
    ∃ q, mapLookup m q = some v := by
  induction m with
  | nil => simp [mapValues] at h
  | cons e m ih =>
      obtain ⟨a, b⟩ := e
      simp only [mapValues, List.map_cons, List.mem_cons] at h
      simp only [List.map_cons, List.nodup_cons] at hnd
      rcases h with h | h
      · exact ⟨a, by simp [mapLookup, h]⟩
      · obtain ⟨q, hq⟩ := ih hnd.2 h
        refine ⟨q, ?_⟩
        have hqa : a ≠ q := by
          intro he
          subst he
          exact hnd.1 (List.mem_map.mpr ⟨_, mapLookup_mem m a v hq, rfl⟩)
        simp [mapLookup, hqa, hq]

theorem seedFold_lookup (F : List Article) :
    ∀ (m0 : JMap) (q : String),
      mapLookup (F.foldl (fun m a => setEntry m (artKey a) a) m0) q
        = (lastWithKey F q).or (mapLookup m0 q) := by
  induction F with
  | nil => intro m0 q; simp [lastWithKey]
  | cons a F ih =>
      intro m0 q
      simp only [List.foldl_cons]
      rw [ih, mapLookup_setEntry]
      rw [show lastWithKey (a :: F) q
          = (match lastWithKey F q with
             | some b => some b
             | none => if artKey a = q then some a else none) from rfl]
      cases hl : lastWithKey F q with
      | some b => simp
      | none =>
          by_cases hq : artKey a = q
          · simp [hq]
          · simp [hq, Ne.symm hq]

theorem seedFold_nodup (F : List Article) :
    ∀ (m0 : JMap), (m0.map Prod.fst).Nodup →
      ((F.foldl (fun m a => setEntry m (artKey a) a) m0).map Prod.fst).Nodup := by
  induction F with
  | nil => exact fun m0 h => h
  | cons a F ih =>
      intro m0 h
      exact ih _ (nodup_keys_setEntry m0 (artKey a) a h)

theorem setEntry_wellKeyed (m : JMap) (a : Article)
    (h : ∀ e ∈ m, e.1 = artKey e.2) :
    ∀ e ∈ setEntry m (artKey a) a, e.1 = artKey e.2 := by
  induction m with
  | nil => simp [setEntry]
  | cons e0 m ih =>
      obtain ⟨k0, v0⟩ := e0
      by_cases hk : k0 = artKey a
      · subst hk
        intro e he
        simp [setEntry] at he
        rcases he with he | he
        · simp [he]
        · exact h e (List.mem_cons_of_mem _ he)
      · intro e he
        simp [setEntry, hk] at he
        rcases he with he | he
        · exact h e (by simp [he])
        · exact ih (fun e' he' => h e' (List.mem_cons_of_mem _ he')) e he

theorem seedFold_wellKeyed (F : List Article) :
    ∀ (m0 : JMap), (∀ e ∈ m0, e.1 = artKey e.2) →
      ∀ e ∈ F.foldl (fun m a => setEntry m (artKey a) a) m0,
        e.1 = artKey e.2 := by
  induction F with
  | nil => exact fun m0 h => h
  | cons a F ih =>
      intro m0 h
      exact ih _ (setEntry_wellKeyed m0 a h)

theorem addLocals_lookup (S : List Article) :
    ∀ (m0 : JMap) (q : String),
      mapLookup (addLocals m0 S) q
        = (mapLookup m0 q).or (firstWithKey S q) := by
  induction S with
  | nil => intro m0 q; simp [addLocals, firstWithKey, Option.or_none]
  | cons a S ih =>
      intro m0 q
      unfold addLocals at ih ⊢
      simp only [List.foldl_cons]
      rw [ih]
      have hstep :
          mapLookup (if mapHasKey m0 (artKey a) then m0
            else setEntry m0 (artKey a) a) q
          = (mapLookup m0 q).or (if artKey a = q then some a else none) := by
        by_cases hh : mapHasKey m0 (artKey a)
        · rw [if_pos hh]
          by_cases hq : artKey a = q
          · subst hq
            unfold mapHasKey at hh
            cases hw : mapLookup m0 (artKey a) with
            | none => rw [hw] at hh; simp at hh
            | some w => simp [hw]
          · simp [hq, Option.or_none]
        · rw [if_neg hh, mapLookup_setEntry]
          by_cases hq : q = artKey a
          · subst hq
            unfold mapHasKey at hh
            cases hw : mapLookup m0 (artKey a) with
            | none => simp [hw]
            | some w => rw [hw] at hh; simp at hh
          · simp [hq, Ne.symm hq, Option.or_none]
      rw [hstep, Option.or_assoc]
      rw [show firstWithKey (a :: S) q
          = (if artKey a = q then some a else firstWithKey S q) from rfl]
      by_cases hq : artKey a = q <;> simp [hq]

theorem addLocals_nodup (S : List Article) :
    ∀ (m0 : JMap), (m0.map Prod.fst).Nodup →
      ((addLocals m0 S).map Prod.fst).Nodup := by
  induction S with
  | nil => exact fun m0 h => h
  | cons a S ih =>
      intro m0 h
      unfold addLocals at ih ⊢
      simp only [List.foldl_cons]
      apply ih
      by_cases hh : mapHasKey m0 (artKey a)
      · simpa [hh] using h
      · simpa [hh] using nodup_keys_setEntry m0 (artKey a) a h

theorem addLocals_wellKeyed (S : List Article) :
    ∀ (m0 : JMap), (∀ e ∈ m0, e.1 = artKey e.2) →
      ∀ e ∈ addLocals m0 S, e.1 = artKey e.2 := by
  induction S with
  | nil => exact fun m0 h => h
  | cons a S ih =>
      intro m0 h
      unfold addLocals at ih ⊢
      simp only [List.foldl_cons]
      apply ih
      by_cases hh : mapHasKey m0 (artKey a)
      · simpa [hh] using h
      · simpa [hh] using setEntry_wellKeyed m0 a h

theorem lastWithKey_none (F : List Article) (q : String) :
    lastWithKey F q = none ↔ q ∉ F.map artKey := by
  induction F with
  | nil => simp [lastWithKey]
  | cons a F ih =>
      rw [show lastWithKey (a :: F) q
          = (match lastWithKey F q with
             | some b => some b
             | none => if artKey a = q then some a else none) from rfl]
      cases hl : lastWithKey F q with
      | some b =>
          simp only [List.map_cons, List.mem_cons]
          constructor
          · intro h
            exact absurd h (by simp)
          · intro h
            have hn := ih.mpr (fun hm => h (Or.inr hm))
            rw [hl] at hn
            exact absurd hn (by simp)
      | none =>
          have hq' := ih.mp hl
          by_cases hq : artKey a = q
          · simp [hq]
          · simp [hq, Ne.symm hq, hq']

theorem values_map_key (m : JMap) (h : ∀ e ∈ m, e.1 = artKey e.2) :
    (mapValues m).map artKey = m.map Prod.fst := by
  induction m with
  | nil => rfl
  | cons e m ih =>
      obtain ⟨k, v⟩ := e
      simp only [mapValues, List.map_cons]
      rw [show artKey v = k from (h (k, v) (by simp)).symm]
      have := ih (fun e' he' => h e' (List.mem_cons_of_mem _ he'))
      simp only [mapValues] at this
      rw [this]

/-- C1 as amended: for every normalized feed sequence `F` and every prior
store `S`, the merge inside `refreshFromFeed` yields exactly: for every id
of `F`, the last `F`-article with that id (feed wins, later feed
duplicates overwrite earlier ones), plus, for every id of `S` that does
not occur in `F`, the first `S`-article with that id; no id appears twice
in the result, and the result is ordered descending by the date value of
`createdAt`. -/
theorem mergeKeepingLocalOnly_spec (dv : JValue → Int)
    (F S : List Article) :
    (∀ a, a ∈ mergeKeepingLocalOnly dv F S ↔
        (lastWithKey F (artKey a) = some a ∨
          (artKey a ∉ F.map artKey ∧
            firstWithKey S (artKey a) = some a))) ∧
    ((mergeKeepingLocalOnly dv F S).map artKey).Nodup ∧
    (mergeKeepingLocalOnly dv F S).Pairwise
      (fun a b => dv b.createdAt ≤ dv a.createdAt) := by
  have hM_lookup : ∀ q, mapLookup (addLocals (seedMap F) S) q
      = (lastWithKey F q).or (firstWithKey S q) := by
    intro q
    rw [addLocals_lookup, show seedMap F
      = F.foldl (fun m a => setEntry m (artKey a) a) [] from rfl,
      seedFold_lookup]
    simp [mapLookup, Option.or_none]
  have hnodup : ((addLocals (seedMap F) S).map Prod.fst).Nodup :=
    addLocals_nodup S _ (seedFold_nodup F [] (by simp))
  have hwk : ∀ e ∈ addLocals (seedMap F) S, e.1 = artKey e.2 :=
    addLocals_wellKeyed S _ (seedFold_wellKeyed F [] (by simp))
  refine ⟨?_, ?_, ?_⟩
  · intro a
    have hm : a ∈ mergeKeepingLocalOnly dv F S ↔
        a ∈ mapValues (addLocals (seedMap F) S) := by
      unfold mergeKeepingLocalOnly
      exact List.mem_mergeSort
    rw [hm]
    constructor
    · intro h
      obtain ⟨q, hq⟩ := lookup_of_values _ a hnodup h
      have hkey : q = artKey a := hwk (q, a) (mapLookup_mem _ q a hq)
      subst hkey
      rw [hM_lookup, Option.or_eq_some] at hq
      rcases hq with hq | ⟨hn, hq⟩
      · exact Or.inl hq
      · exact Or.inr ⟨(lastWithKey_none F (artKey a)).mp hn, hq⟩
    · intro h
      apply values_of_lookup _ (artKey a) a
      rw [hM_lookup, Option.or_eq_some]
      rcases h with h | ⟨hn, h⟩
      · exact Or.inl h
      · exact Or.inr ⟨(lastWithKey_none F (artKey a)).mpr hn, h⟩
  · have hperm : List.Perm (mergeKeepingLocalOnly dv F S)
        (mapValues (addLocals (seedMap F) S)) := by
      unfold mergeKeepingLocalOnly
      exact List.mergeSort_perm _ _
    have h2 := List.Perm.nodup_iff (List.Perm.map artKey hperm)
    rw [values_map_key _ hwk] at h2
    exact h2.mpr hnodup
  · have hs : (mergeKeepingLocalOnly dv F S).Pairwise
        (fun a b => createdDesc dv a b = true) := by
      unfold mergeKeepingLocalOnly
      apply List.sorted_mergeSort
      · intro a b c hab hbc
        simp only [createdDesc, decide_eq_true_eq] at *
        omega
      · intro a b
        simp only [createdDesc]
        by_cases h : dv b.createdAt ≤ dv a.createdAt
        · simp [h]
        · simp [h]
          omega
    exact hs.imp (fun h => by simpa [createdDesc] using h)

/-- Counterexample to C1 as stated: when the prior store holds two
different articles with the same id (reachable, since the `POST` path
prepends without deduplicating), the merge keeps only the first of them,
so the result does not contain "every article of S whose id does not
occur in F". -/
theorem mergeKeepingLocalOnly_counterexample :
    ((⟨.jstr "x", .jstr "H2", .jstr "C2", .jnum 1⟩ : Article) ∈
        [(⟨.jstr "x", .jstr "H1", .jstr "C1", .jnum 2⟩ : Article),
         ⟨.jstr "x", .jstr "H2", .jstr "C2", .jnum 1⟩]) ∧
    (artKey ⟨.jstr "x", .jstr "H2", .jstr "C2", .jnum 1⟩
        ∉ ([] : List Article).map artKey) ∧
    ((⟨.jstr "x", .jstr "H2", .jstr "C2", .jnum 1⟩ : Article) ∉
        mergeKeepingLocalOnly prims0.dateVal []
          [⟨.jstr "x", .jstr "H1", .jstr "C1", .jnum 2⟩,
           ⟨.jstr "x", .jstr "H2", .jstr "C2", .jnum 1⟩]) := by
  refine ⟨by simp, by simp, ?_⟩
  have h1 : mapValues (addLocals (seedMap [])
      [⟨.jstr "x", .jstr "H1", .jstr "C1", .jnum 2⟩,
       ⟨.jstr "x", .jstr "H2", .jstr "C2", .jnum 1⟩])
      = [⟨.jstr "x", .jstr "H1", .jstr "C1", .jnum 2⟩] := rfl
  unfold mergeKeepingLocalOnly
  rw [h1, List.mergeSort_singleton]
  simp

end Apfelsaft
